import Mathlib

/-!
Verification of `msd_analysis_protein.py` (Brownian-motion MSD analysis).

Numeric model: Python floats are modelled as exact rationals (`ℚ`) where the
source only uses field arithmetic, and as reals (`ℝ`) where the source calls
`np.sqrt`, `np.pi` or `np.log10`.  The global numpy random stream obtained
after `np.random.seed(42)` is modelled as an abstract draw sequence
`g : ℕ → ℝ`; `np.random.randn()` consumes the draws in program order
(x-draw then y-draw in each loop iteration).
-/

namespace MsdAnalysis

/-! ## MSDEngine: `compute_msd`

Source (`src/code/msd_analysis_protein.py`, `compute_msd`):
```
N = len(r)
msd = np.zeros(N)
for lag in range(1, N):
    diffs = r[lag:] - r[:-lag]
    msd[lag] = np.mean(diffs**2)
return msd
```
`r[lag:] - r[:-lag]` is the elementwise difference of the last `N-lag` and the
first `N-lag` entries, modelled by zipping `r.drop lag` with `r` (zip truncates
to the shorter list, i.e. to length `N - lag`). -/

/-- The list of squared displacements `(r[i+lag] - r[i])^2` for the valid
start indices `i`, i.e. the source's `diffs**2`. -/
def sqDiffs (r : List ℚ) (lag : ℕ) : List ℚ :=
  ((r.drop lag).zip r).map (fun p => (p.1 - p.2) ^ 2)

/-- Model of `compute_msd`: entry `0` stays at the `np.zeros` value `0`; entry `lag`
(for `1 ≤ lag < N`) is `np.mean(diffs**2)`, the sum of the squared
displacements divided by their count. -/
def compute_msd (r : List ℚ) : List ℚ :=
  (List.range r.length).map (fun lag =>
    if lag = 0 then 0 else (sqDiffs r lag).sum / ((sqDiffs r lag).length : ℚ))

theorem sqDiffs_length (r : List ℚ) (lag : ℕ) :
    (sqDiffs r lag).length = r.length - lag := by
  simp [sqDiffs]

theorem compute_msd_length (r : List ℚ) : (compute_msd r).length = r.length := by
  simp [compute_msd]

theorem sqDiffs_eq_ofFn (r : List ℚ) (lag : ℕ) :
    sqDiffs r lag
      = List.ofFn
          (fun i : Fin (r.length - lag) => (r.getD (i.1 + lag) 0 - r.getD i.1 0) ^ 2) := by
  apply List.ext_getElem
  · simp [sqDiffs_length]
  · intro i h1 h2
    have hi : i < r.length - lag := by simpa [sqDiffs_length] using h1
    have hdrop : i < (r.drop lag).length := by
      simpa [List.length_drop] using hi
    have hr : i < r.length := lt_of_lt_of_le hi (Nat.sub_le _ _)
    have hr2 : lag + i < r.length := by omega
    simp only [sqDiffs, List.getElem_map, List.getElem_zip, List.getElem_ofFn,
      List.getElem_drop]
    rw [List.getD_eq_getElem r 0 (by omega), List.getD_eq_getElem r 0 hr]
    ring_nf

theorem sqDiffs_sum (r : List ℚ) (lag : ℕ) :
    (sqDiffs r lag).sum
      = ∑ i in Finset.range (r.length - lag),
          (r.getD (i + lag) 0 - r.getD i 0) ^ 2 := by
  rw [sqDiffs_eq_ofFn]
  simp only [List.sum_ofFn]
  exact Fin.sum_univ_eq_sum_range
    (fun j => (r.getD (j + lag) 0 - r.getD j 0) ^ 2) (r.length - lag)

theorem compute_msd_getD (r : List ℚ) (lag : ℕ) (h : lag < r.length) :
    (compute_msd r).getD lag 0
      = if lag = 0 then 0
        else (∑ i in Finset.range (r.length - lag),
               (r.getD (i + lag) 0 - r.getD i 0) ^ 2) / ((r.length - lag : ℕ) : ℚ) := by
  have hlen : lag < (compute_msd r).length := by simpa [compute_msd_length] using h
  rw [List.getD_eq_getElem _ 0 hlen]
  simp only [compute_msd, List.getElem_map, List.getElem_range]
  rw [sqDiffs_sum, sqDiffs_length]

/-- Claim C1: for every position sequence `r` of length `N ≥ 1`, `compute_msd`
returns a sequence of length `N` whose entry `0` is `0` and whose entry `L`,
for each lag `1 ≤ L ≤ N - 1`, is the mean over all valid start indices
`0 ≤ i ≤ N - 1 - L` of `(r[i+L] - r[i])^2`, with equal weight per valid pair. -/
theorem compute_msd_spec (r : List ℚ) (h : 1 ≤ r.length) :
    (compute_msd r).length = r.length ∧
    (compute_msd r).getD 0 0 = 0 ∧
    ∀ L, 1 ≤ L → L ≤ r.length - 1 →
      (compute_msd r).getD L 0
        = (∑ i in Finset.range (r.length - L),
            (r.getD (i + L) 0 - r.getD i 0) ^ 2) / ((r.length - L : ℕ) : ℚ) := by
  refine ⟨compute_msd_length r, ?_, ?_⟩
  · rw [compute_msd_getD r 0 (by omega)]
    simp
  · intro L hL1 hL2
    rw [compute_msd_getD r L (by omega)]
    rw [if_neg (by omega : ¬ L = 0)]

/-- Witness for C1 at `r = [0, 1, 3]`: `N = 3`, and the lag-1 entry is the
mean `((1-0)^2 + (3-1)^2)/2 = 5/2`. -/
theorem compute_msd_spec_witness :
    1 ≤ ([0, 1, 3] : List ℚ).length ∧
    (1 ≤ 1 ∧ 1 ≤ ([0, 1, 3] : List ℚ).length - 1) ∧
    (compute_msd [0, 1, 3]).getD 1 0
      = (∑ i in Finset.range (([0, 1, 3] : List ℚ).length - 1),
          (([0, 1, 3] : List ℚ).getD (i + 1) 0
            - ([0, 1, 3] : List ℚ).getD i 0) ^ 2)
        / ((([0, 1, 3] : List ℚ).length - 1 : ℕ) : ℚ) :=
  ⟨by decide, ⟨le_refl 1, by decide⟩,
    (compute_msd_spec [0, 1, 3] (by decide)).2.2 1 (le_refl 1) (by decide)⟩

/-- Claim C9: `compute_msd` on a constant sequence is all-zero. -/
theorem compute_msd_const (n : ℕ) (c : ℚ) :
    compute_msd (List.replicate n c) = List.replicate n 0 := by
  apply List.ext_getElem
  · simp [compute_msd_length]
  · intro i h1 h2
    have hi : i < n := by simpa using h2
    have hgd := compute_msd_getD (List.replicate n c) i (by simpa using hi)
    rw [List.getD_eq_getElem _ 0 h1] at hgd
    rw [hgd]
    have hz : ∀ j ∈ Finset.range ((List.replicate n c : List ℚ).length - i),
        ((List.replicate n c : List ℚ).getD (j + i) 0
          - (List.replicate n c : List ℚ).getD j 0) ^ 2 = 0 := by
      intro j hj
      have hj' : j < n - i := by simpa using hj
      rw [List.getD_eq_getElem _ 0 (by simp; omega),
        List.getD_eq_getElem _ 0 (by simp; omega)]
      simp
    rw [Finset.sum_congr rfl hz]
    simp

/-! ## PhysicalModel: `initialize_parameters`

Source:
```
kB = 1.380649e-23
T_kelvin = 298.15
eta = 1e-3
gamma = 6 * np.pi * eta * inputs['radius']
D = kB * T_kelvin / gamma
N = int(inputs['T'] / inputs['dt'])
time = np.linspace(0, inputs['T'], N)
return gamma, D, N, time, kB, T_kelvin
```
The function performs no validation of its inputs. -/

/-- The user-supplied parameter dictionary of `get_user_inputs`. -/
structure Inputs where
  mass : ℝ
  radius : ℝ
  x0 : ℝ
  y0 : ℝ
  dt : ℝ
  T : ℝ
  is_underdamped : Bool

/-- Boltzmann constant as in the source (J/K). -/
def kB : ℝ := 1.380649e-23

/-- Room temperature as in the source (K). -/
def T_kelvin : ℝ := 298.15

/-- Water viscosity as in the source (Pa·s). -/
def eta : ℝ := 1e-3

/-- Python `int()` applied to a float truncates toward zero. -/
noncomputable def pyInt (x : ℝ) : ℤ :=
  if 0 ≤ x then ⌊x⌋ else ⌈x⌉

/-- Model of `np.linspace a b n`: `n` evenly spaced samples from `a` to `b` inclusive
(`n = 1` gives `[a]`; numpy rejects negative `n`, modelled as `[]`, a case no
theorem below touches). -/
noncomputable def linspace (a b : ℝ) (n : ℤ) : List ℝ :=
  if n ≤ 0 then []
  else if n = 1 then [a]
  else (List.range n.toNat).map (fun k => a + (b - a) * k / ((n.toNat : ℝ) - 1))

/-- Model of `initialize_parameters`, returning `(gamma, D, N, time, kB, T_kelvin)`
exactly as the source does, with no validation of any input. -/
noncomputable def initialize_parameters (inputs : Inputs) :
    ℝ × ℝ × ℤ × List ℝ × ℝ × ℝ :=
  let gamma := 6 * Real.pi * eta * inputs.radius
  let D := kB * T_kelvin / gamma
  let N := pyInt (inputs.T / inputs.dt)
  (gamma, D, N, linspace 0 inputs.T N, kB, T_kelvin)

theorem eta_pos : 0 < eta := by norm_num [eta]

theorem kB_pos : 0 < kB := by norm_num [kB]

theorem T_kelvin_pos : 0 < T_kelvin := by norm_num [T_kelvin]

theorem sixPiEta_pos : 0 < 6 * Real.pi * eta :=
  mul_pos (by positivity) eta_pos

/-- Claim C7: for positive radius, `initialize_parameters` returns
`gamma = 6·π·viscosity·radius` and `D = kB·temperature/gamma` with the fixed
constants `eta = 1e-3`, `T_kelvin = 298.15`, `kB = 1.380649e-23`; both are
positive, and `gamma` is monotonically increasing in the radius. -/
theorem initialize_parameters_derive (i j : Inputs)
    (hi : 0 < i.radius) (hij : i.radius < j.radius) :
    eta = 1e-3 ∧ T_kelvin = 298.15 ∧ kB = 1.380649e-23 ∧
    (initialize_parameters i).1 = 6 * Real.pi * eta * i.radius ∧
    (initialize_parameters i).2.1 = kB * T_kelvin / (initialize_parameters i).1 ∧
    0 < (initialize_parameters i).1 ∧
    0 < (initialize_parameters i).2.1 ∧
    (initialize_parameters i).1 < (initialize_parameters j).1 := by
  have hgamma : 0 < 6 * Real.pi * eta * i.radius := mul_pos sixPiEta_pos hi
  refine ⟨rfl, rfl, rfl, rfl, rfl, hgamma, ?_, ?_⟩
  · exact div_pos (mul_pos kB_pos T_kelvin_pos) hgamma
  · exact mul_lt_mul_of_pos_left hij sixPiEta_pos

/-- Witness for C7 at radii `1 < 2` (other fields arbitrary). -/
theorem initialize_parameters_derive_witness :
    (0 < (Inputs.mk 1 1 0 0 1 1 false).radius ∧
      (Inputs.mk 1 1 0 0 1 1 false).radius < (Inputs.mk 1 2 0 0 1 1 false).radius) ∧
    (0 < (initialize_parameters (Inputs.mk 1 1 0 0 1 1 false)).1 ∧
      (initialize_parameters (Inputs.mk 1 1 0 0 1 1 false)).1
        < (initialize_parameters (Inputs.mk 1 2 0 0 1 1 false)).1) :=
  ⟨⟨by norm_num, by norm_num⟩,
    ⟨(initialize_parameters_derive (Inputs.mk 1 1 0 0 1 1 false)
        (Inputs.mk 1 2 0 0 1 1 false) (by norm_num) (by norm_num)).2.2.2.2.2.1,
      (initialize_parameters_derive (Inputs.mk 1 1 0 0 1 1 false)
        (Inputs.mk 1 2 0 0 1 1 false) (by norm_num) (by norm_num)).2.2.2.2.2.2.2⟩⟩

/-- Counterexample to claim C2: `initialize_parameters` performs no parameter
validation.  At the concrete invalid input `radius = -1e-7` (with
`dt = 1/100 > 0`, `total_time = 10 > 0`) the run does not abort with an
`InvalidParameter` error: it returns results, namely a negative drag
coefficient `gamma` and a negative diffusion coefficient `D`. -/
theorem initialize_parameters_no_validation_cex :
    (initialize_parameters (Inputs.mk 1e-20 (-1e-7) 0 0 (1/100) 10 false)).1 < 0 ∧
    (initialize_parameters (Inputs.mk 1e-20 (-1e-7) 0 0 (1/100) 10 false)).2.1 < 0 := by
  have hgamma : (initialize_parameters (Inputs.mk 1e-20 (-1e-7) 0 0 (1/100) 10 false)).1
      = 6 * Real.pi * eta * (-1e-7) := rfl
  have hneg : 6 * Real.pi * eta * (-1e-7) < 0 := by
    have := sixPiEta_pos
    nlinarith
  refine ⟨by rw [hgamma]; exact hneg, ?_⟩
  have hD : (initialize_parameters (Inputs.mk 1e-20 (-1e-7) 0 0 (1/100) 10 false)).2.1
      = kB * T_kelvin / (6 * Real.pi * eta * (-1e-7)) := rfl
  rw [hD]
  exact div_neg_of_pos_of_neg (mul_pos kB_pos T_kelvin_pos) hneg

/-- Claim C2 as amended: `initialize_parameters` does not validate its inputs;
for any input with negative radius it proceeds and returns a negative `gamma`
and a negative `D` (no `InvalidParameter` error path exists in the code). -/
theorem initialize_parameters_no_validation (i : Inputs) (h : i.radius < 0) :
    (initialize_parameters i).1 < 0 ∧ (initialize_parameters i).2.1 < 0 := by
  have hneg : 6 * Real.pi * eta * i.radius < 0 :=
    mul_neg_of_pos_of_neg sixPiEta_pos h
  exact ⟨hneg, div_neg_of_pos_of_neg (mul_pos kB_pos T_kelvin_pos) hneg⟩

/-- Witness for the amended C2 at `radius = -1e-7`. -/
theorem initialize_parameters_no_validation_witness :
    (Inputs.mk 1e-20 (-1e-7) 0 0 (1/100) 10 false).radius < 0 ∧
    ((initialize_parameters (Inputs.mk 1e-20 (-1e-7) 0 0 (1/100) 10 false)).1 < 0 ∧
      (initialize_parameters (Inputs.mk 1e-20 (-1e-7) 0 0 (1/100) 10 false)).2.1 < 0) :=
  ⟨by norm_num,
    initialize_parameters_no_validation
      (Inputs.mk 1e-20 (-1e-7) 0 0 (1/100) 10 false) (by norm_num)⟩

/-! ## TrajectorySimulator

The global numpy stream after `np.random.seed(42)` is modelled by `g : ℕ → ℝ`;
step `i` of each simulation loop consumes draw `g (2*(i-1))` for the x axis and
`g (2*(i-1)+1)` for the y axis, matching the order of the `randn()` calls. -/

/-- One overdamped random-walk coordinate:
`x[0] = x0`, `x[i] = x[i-1] + sig * g(i-1)` with `sig = sqrt(2*D*dt)`. -/
noncomputable def odPos (sig x0 : ℝ) (g : ℕ → ℝ) : ℕ → ℝ
  | 0 => x0
  | i + 1 => odPos sig x0 g i + sig * g i

/-- Model of `simulate_overdamped`: reseeds the generator, then performs `N-1` random
walk steps per axis; `inputs['mass']` and all other fields except `x0`, `y0`
and `dt` are never read. -/
noncomputable def simulate_overdamped (inputs : Inputs) (D : ℝ) (N : ℕ)
    (g : ℕ → ℝ) : List ℝ × List ℝ :=
  ((List.range N).map
      (odPos (Real.sqrt (2 * D * inputs.dt)) inputs.x0 (fun j => g (2 * j))),
   (List.range N).map
      (odPos (Real.sqrt (2 * D * inputs.dt)) inputs.y0 (fun j => g (2 * j + 1))))

/-- One underdamped coordinate, carrying `(position, velocity)`:
`v[i] = v[i-1] + ((-gamma*v[i-1] + amp*g(i-1))/mass)*dt`,
`x[i] = x[i-1] + v[i]*dt`, with `x[0] = x0`, `v[0] = 0`. -/
noncomputable def udState (gamma mass dt amp x0 : ℝ) (g : ℕ → ℝ) : ℕ → ℝ × ℝ
  | 0 => (x0, 0)
  | i + 1 =>
      let p := udState gamma mass dt amp x0 g i
      let v := p.2 + ((-gamma * p.2 + amp * g i) / mass) * dt
      (p.1 + v * dt, v)

/-- Model of `simulate_underdamped` with noise amplitude `sqrt(2*gamma*kB*T_kelvin/dt)`,
Euler-integrated as in the source. -/
noncomputable def simulate_underdamped (inputs : Inputs) (gamma : ℝ) (N : ℕ)
    (kBArg TKArg : ℝ) (g : ℕ → ℝ) : List ℝ × List ℝ :=
  let amp := Real.sqrt (2 * gamma * kBArg * TKArg / inputs.dt)
  ((List.range N).map
      (fun i => (udState gamma inputs.mass inputs.dt amp inputs.x0
        (fun j => g (2 * j)) i).1),
   (List.range N).map
      (fun i => (udState gamma inputs.mass inputs.dt amp inputs.y0
        (fun j => g (2 * j + 1)) i).1))

/-- Claim C8: for `N ≥ 2`, both simulators return x- and y-sequences of length
exactly `N` whose first entries are exactly the supplied origin. -/
theorem simulate_length_origin (i : Inputs) (D gamma kBArg TKArg : ℝ) (N : ℕ)
    (g : ℕ → ℝ) (h : 2 ≤ N) :
    (simulate_overdamped i D N g).1.length = N ∧
    (simulate_overdamped i D N g).2.length = N ∧
    (simulate_overdamped i D N g).1.getD 0 0 = i.x0 ∧
    (simulate_overdamped i D N g).2.getD 0 0 = i.y0 ∧
    (simulate_underdamped i gamma N kBArg TKArg g).1.length = N ∧
    (simulate_underdamped i gamma N kBArg TKArg g).2.length = N ∧
    (simulate_underdamped i gamma N kBArg TKArg g).1.getD 0 0 = i.x0 ∧
    (simulate_underdamped i gamma N kBArg TKArg g).2.getD 0 0 = i.y0 := by
  obtain ⟨n, rfl⟩ : ∃ n, N = n + 1 := ⟨N - 1, by omega⟩
  refine ⟨?_, ?_, ?_, ?_, ?_, ?_, ?_, ?_⟩ <;>
    simp [simulate_overdamped, simulate_underdamped, List.range_succ_eq_map,
      odPos, udState]

/-- Witness for C8 at `N = 2`, origin `(3, 4)`, zero noise stream. -/
theorem simulate_length_origin_witness :
    2 ≤ 2 ∧
    ((simulate_overdamped (Inputs.mk 1 1 3 4 1 1 false) 1 2 (fun _ => 0)).1.length = 2 ∧
      (simulate_overdamped (Inputs.mk 1 1 3 4 1 1 false) 1 2 (fun _ => 0)).1.getD 0 0
        = (Inputs.mk 1 1 3 4 1 1 false).x0) :=
  ⟨le_refl 2,
    (simulate_length_origin (Inputs.mk 1 1 3 4 1 1 false) 1 1 1 1 2
        (fun _ => 0) (le_refl 2)).1,
    (simulate_length_origin (Inputs.mk 1 1 3 4 1 1 false) 1 1 1 1 2
        (fun _ => 0) (le_refl 2)).2.2.1⟩

/-- Claim C6: both simulators are deterministic functions of the parameters and
the seeded random stream.  In the source each call begins with
`np.random.seed(42)`, so two runs with the same seed consume identical draw
streams; with equal streams (and equal parameters) the outputs are
bit-identical for either mode. -/
theorem simulate_deterministic (i : Inputs) (D gamma kBArg TKArg : ℝ) (N : ℕ)
    (g1 g2 : ℕ → ℝ) (hseed : g1 = g2) :
    simulate_overdamped i D N g1 = simulate_overdamped i D N g2 ∧
    simulate_underdamped i gamma N kBArg TKArg g1
      = simulate_underdamped i gamma N kBArg TKArg g2 := by
  subst hseed
  exact ⟨rfl, rfl⟩

/-- Witness for C6 with the zero stream on both runs. -/
theorem simulate_deterministic_witness :
    (fun _ : ℕ => (0 : ℝ)) = (fun _ : ℕ => (0 : ℝ)) ∧
    simulate_overdamped (Inputs.mk 1 1 0 0 1 1 false) 1 3 (fun _ => 0)
      = simulate_overdamped (Inputs.mk 1 1 0 0 1 1 false) 1 3 (fun _ => 0) :=
  ⟨rfl,
    (simulate_deterministic (Inputs.mk 1 1 0 0 1 1 false) 1 1 1 1 3
      (fun _ => 0) (fun _ => 0) rfl).1⟩

/-- Claim C10: the overdamped simulator never reads the mass.  For any two
input dictionaries agreeing on every field except `mass`, with the same `D`,
`N` and random stream, the outputs coincide. -/
theorem simulate_overdamped_mass_independent (i1 i2 : Inputs) (D : ℝ) (N : ℕ)
    (g : ℕ → ℝ) (hradius : i1.radius = i2.radius) (hx0 : i1.x0 = i2.x0)
    (hy0 : i1.y0 = i2.y0) (hdt : i1.dt = i2.dt) (hT : i1.T = i2.T)
    (hmode : i1.is_underdamped = i2.is_underdamped) :
    simulate_overdamped i1 D N g = simulate_overdamped i2 D N g := by
  simp only [simulate_overdamped, hx0, hy0, hdt]

/-- Witness for C10: inputs differing only in mass (`1` vs `7`). -/
theorem simulate_overdamped_mass_independent_witness :
    ((Inputs.mk 1 2 3 4 5 6 false).mass ≠ (Inputs.mk 7 2 3 4 5 6 false).mass ∧
      (Inputs.mk 1 2 3 4 5 6 false).radius = (Inputs.mk 7 2 3 4 5 6 false).radius) ∧
    simulate_overdamped (Inputs.mk 1 2 3 4 5 6 false) 1 3 (fun _ => 0)
      = simulate_overdamped (Inputs.mk 7 2 3 4 5 6 false) 1 3 (fun _ => 0) :=
  ⟨⟨by norm_num, rfl⟩,
    simulate_overdamped_mass_independent (Inputs.mk 1 2 3 4 5 6 false)
      (Inputs.mk 7 2 3 4 5 6 false) 1 3 (fun _ => 0) rfl rfl rfl rfl rfl rfl⟩

/-! ## RegressionAnalyzer: `compute_log_slope`

Source:
```
mask = (time > fit_range[0]) & (time < fit_range[1])
log_time = np.log10(time[mask])
log_msd = np.log10(msd_total[mask])
slope, intercept = np.polyfit(log_time, log_msd, 1)
return slope, (log_time, log_msd)
```
Input arrays are modelled over `ℚ` (the filter is exact arithmetic), the
logarithms over `ℝ`.  `np.polyfit(x, y, 1)` builds the Vandermonde matrix,
scales each of its columns by its Euclidean norm before calling `lstsq` (to
improve conditioning) and unscales the coefficients afterwards.  With a
full-rank design matrix this returns the unique OLS `(slope, intercept)`
(scaling does not change the unique solution); when all abscissae coincide at
a common value `c` (rank-deficient design, e.g. a single point) `lstsq`
returns the minimum-norm solution of the scaled system, which after unscaling
is slope `mean(y)/(2·c)` and intercept `mean(y)/2` for `c ≠ 0`, and NaN for
`c = 0` (the column norm is zero and the scaling divides 0/0).  The function
contains no data-sufficiency check and raises no designed error. -/

/-- Model of `np.log10` from the source (`np.log10`). -/
noncomputable def log10 (x : ℝ) : ℝ := Real.logb 10 x

/-- The window filter `(time > lo) & (time < hi)` applied to the index-aligned
pairs of `time` and `msd`. -/
def filterWindow (time msd : List ℚ) (lo hi : ℚ) : List (ℚ × ℚ) :=
  (time.zip msd).filter (fun p => decide (lo < p.1 ∧ p.1 < hi))

/-- The `(log_time, log_msd)` pair of arrays for a filtered point set. -/
noncomputable def logPoints (pts : List (ℚ × ℚ)) : List ℝ × List ℝ :=
  (pts.map (fun p => log10 (p.1 : ℝ)), pts.map (fun p => log10 (p.2 : ℝ)))

/-- Determinant of the OLS normal equations: `n·Σx² - (Σx)²`. -/
noncomputable def olsDet (xs : List ℝ) : ℝ :=
  (xs.length : ℝ) * (xs.map (fun x => x ^ 2)).sum - xs.sum ^ 2

/-- OLS slope of `ys` on `xs` (full-rank case of `np.polyfit(x, y, 1)`). -/
noncomputable def ols_slope (xs ys : List ℝ) : ℝ :=
  ((xs.length : ℝ) * ((xs.zip ys).map (fun p => p.1 * p.2)).sum
    - xs.sum * ys.sum) / olsDet xs

/-- OLS intercept of `ys` on `xs` (full-rank case of `np.polyfit(x, y, 1)`). -/
noncomputable def ols_intercept (xs ys : List ℝ) : ℝ :=
  ((xs.map (fun x => x ^ 2)).sum * ys.sum
    - xs.sum * ((xs.zip ys).map (fun p => p.1 * p.2)).sum) / olsDet xs

/-- Model of `np.polyfit(xs, ys, 1)` in exact arithmetic: the unique OLS solution when
the design matrix has full rank (`olsDet xs ≠ 0`); otherwise all abscissae
equal the head value `c` and numpy's column-scaled `lstsq` yields, after
unscaling, slope `mean(ys)/(2·c)` and intercept `mean(ys)/2`.  For `c = 0`
numpy produces NaN (zero column norm); real division by zero makes the slope
`0` here, a junk value no theorem relies on. -/
noncomputable def polyfit1 (xs ys : List ℝ) : ℝ × ℝ :=
  if olsDet xs = 0 then
    (ys.sum / (xs.length : ℝ) / (2 * xs.headD 0),
     ys.sum / (xs.length : ℝ) / 2)
  else (ols_slope xs ys, ols_intercept xs ys)

/-- Model of `compute_log_slope`: filter, take logs, fit, and return the slope together
with the filtered log-log point set.  The computed intercept is discarded. -/
noncomputable def compute_log_slope (time msd : List ℚ) (lo hi : ℚ) :
    ℝ × (List ℝ × List ℝ) :=
  ((polyfit1 (logPoints (filterWindow time msd lo hi)).1
      (logPoints (filterWindow time msd lo hi)).2).1,
   ((logPoints (filterWindow time msd lo hi)).1,
    (logPoints (filterWindow time msd lo hi)).2))

/-- Sum of squared residuals of the line `y = a·x + b` over paired data. -/
noncomputable def ssr (xs ys : List ℝ) (a b : ℝ) : ℝ :=
  ((xs.zip ys).map (fun p => (a * p.1 + b - p.2) ^ 2)).sum

theorem sumSqDev_expand (a : ℝ) (t : List ℝ) :
    (t.map (fun x => (a - x) ^ 2)).sum
      = (t.length : ℝ) * a ^ 2 - 2 * a * t.sum + (t.map (fun x => x ^ 2)).sum := by
  induction t with
  | nil => simp
  | cons x t ih =>
      simp only [List.map_cons, List.sum_cons, ih, List.length_cons]
      push_cast
      ring

theorem olsDet_cons (a : ℝ) (t : List ℝ) :
    olsDet (a :: t) = olsDet t + (t.map (fun x => (a - x) ^ 2)).sum := by
  simp only [olsDet, List.map_cons, List.sum_cons, List.length_cons,
    sumSqDev_expand]
  push_cast
  ring

theorem olsDet_nonneg (xs : List ℝ) : 0 ≤ olsDet xs := by
  induction xs with
  | nil => simp [olsDet]
  | cons a t ih =>
      rw [olsDet_cons]
      have h2 : 0 ≤ (t.map (fun x => (a - x) ^ 2)).sum :=
        List.sum_nonneg (by
          intro z hz
          obtain ⟨x, _, rfl⟩ := List.mem_map.mp hz
          positivity)
      linarith

theorem sumSqDev_nonneg (a : ℝ) (t : List ℝ) :
    0 ≤ (t.map (fun x => (a - x) ^ 2)).sum :=
  List.sum_nonneg (by
    intro z hz
    obtain ⟨w, _, rfl⟩ := List.mem_map.mp hz
    positivity)

theorem sumSqDev_pos (a y : ℝ) (t : List ℝ) (hy : y ∈ t) (hay : a ≠ y) :
    0 < (t.map (fun x => (a - x) ^ 2)).sum := by
  have hmem : (a - y) ^ 2 ∈ t.map (fun x => (a - x) ^ 2) :=
    List.mem_map_of_mem _ hy
  have hle : (a - y) ^ 2 ≤ (t.map (fun x => (a - x) ^ 2)).sum :=
    List.single_le_sum (by
      intro z hz
      obtain ⟨w, _, rfl⟩ := List.mem_map.mp hz
      positivity) _ hmem
  have hpos : 0 < (a - y) ^ 2 := by
    have hne : a - y ≠ 0 := sub_ne_zero.mpr hay
    positivity
  linarith

theorem olsDet_pos (xs : List ℝ) :
    ∀ x y : ℝ, x ∈ xs → y ∈ xs → x ≠ y → 0 < olsDet xs := by
  induction xs with
  | nil => intro x y hx _ _; simp at hx
  | cons a t ih =>
      intro x y hx hy hxy
      rw [olsDet_cons]
      have hdet := olsDet_nonneg t
      have hsum := sumSqDev_nonneg a t
      rcases List.mem_cons.mp hx with hxa | hxt
      · rcases List.mem_cons.mp hy with hya | hyt
        · exact absurd (hxa.trans hya.symm) hxy
        · have hay : a ≠ y := by
            intro h
            exact hxy (hxa.trans h)
          have := sumSqDev_pos a y t hyt hay
          linarith
      · rcases List.mem_cons.mp hy with hya | hyt
        · have hax : a ≠ x := by
            intro h
            apply hxy
            rw [hya, ← h]
          have := sumSqDev_pos a x t hxt hax
          linarith
        · have := ih x y hxt hyt hxy
          linarith

theorem zip_proj (l : List (ℝ × ℝ)) :
    (l.map (fun p => p.1)).zip (l.map (fun p => p.2)) = l := by
  rw [List.zip_map']
  simp

theorem ssr_expand (l : List (ℝ × ℝ)) (a b : ℝ) :
    ssr (l.map (fun p => p.1)) (l.map (fun p => p.2)) a b
      = a ^ 2 * (l.map (fun p => p.1 ^ 2)).sum
        + 2 * a * b * (l.map (fun p => p.1)).sum
        + (l.length : ℝ) * b ^ 2
        - 2 * a * (l.map (fun p => p.1 * p.2)).sum
        - 2 * b * (l.map (fun p => p.2)).sum
        + (l.map (fun p => p.2 ^ 2)).sum := by
  rw [ssr, zip_proj]
  induction l with
  | nil => simp
  | cons p t ih =>
      simp only [List.map_cons, List.sum_cons, List.length_cons, ih]
      push_cast
      ring

theorem ols_quadratic_min (n Sx Sxx Sxy Sy Syy a b ah bh : ℝ) (hn : 0 < n)
    (hd : 0 < n * Sxx - Sx ^ 2)
    (h1 : ah * Sxx + bh * Sx = Sxy) (h2 : ah * Sx + n * bh = Sy) :
    ah ^ 2 * Sxx + 2 * ah * bh * Sx + n * bh ^ 2 - 2 * ah * Sxy - 2 * bh * Sy + Syy
      ≤ a ^ 2 * Sxx + 2 * a * b * Sx + n * b ^ 2 - 2 * a * Sxy - 2 * b * Sy + Syy := by
  have key : (a ^ 2 * Sxx + 2 * a * b * Sx + n * b ^ 2 - 2 * a * Sxy - 2 * b * Sy + Syy)
      - (ah ^ 2 * Sxx + 2 * ah * bh * Sx + n * bh ^ 2 - 2 * ah * Sxy - 2 * bh * Sy + Syy)
      = (a - ah) ^ 2 * Sxx + 2 * (a - ah) * (b - bh) * Sx + n * (b - bh) ^ 2 := by
    linear_combination (2 * (a - ah)) * h1 + (2 * (b - bh)) * h2
  have hsq : 0 ≤ (a - ah) ^ 2 * Sxx + 2 * (a - ah) * (b - bh) * Sx + n * (b - bh) ^ 2 := by
    nlinarith [sq_nonneg ((a - ah) * Sx + n * (b - bh)),
      mul_nonneg (sq_nonneg (a - ah)) hd.le, sq_nonneg (a - ah)]
  linarith

theorem ols_normal_eq1 (n Sx Sxx Sxy Sy : ℝ) (hd : n * Sxx - Sx ^ 2 ≠ 0) :
    ((n * Sxy - Sx * Sy) / (n * Sxx - Sx ^ 2)) * Sxx
      + ((Sxx * Sy - Sx * Sxy) / (n * Sxx - Sx ^ 2)) * Sx = Sxy := by
  field_simp
  ring

theorem ols_normal_eq2 (n Sx Sxx Sxy Sy : ℝ) (hd : n * Sxx - Sx ^ 2 ≠ 0) :
    ((n * Sxy - Sx * Sy) / (n * Sxx - Sx ^ 2)) * Sx
      + n * ((Sxx * Sy - Sx * Sxy) / (n * Sxx - Sx ^ 2)) = Sy := by
  field_simp
  ring

theorem map_map_fst_sq (l : List (ℝ × ℝ)) :
    (l.map (fun p => p.1)).map (fun x => x ^ 2) = l.map (fun p => p.1 ^ 2) := by
  induction l with
  | nil => rfl
  | cons p t ih => simp only [List.map_cons, ih]

theorem olsDet_eq (l : List (ℝ × ℝ)) :
    olsDet (l.map (fun p => p.1))
      = (l.length : ℝ) * (l.map (fun p => p.1 ^ 2)).sum
        - (l.map (fun p => p.1)).sum ^ 2 := by
  rw [olsDet, map_map_fst_sq, List.length_map]

theorem ols_slope_eq (l : List (ℝ × ℝ)) :
    ols_slope (l.map (fun p => p.1)) (l.map (fun p => p.2))
      = ((l.length : ℝ) * (l.map (fun p => p.1 * p.2)).sum
          - (l.map (fun p => p.1)).sum * (l.map (fun p => p.2)).sum)
        / ((l.length : ℝ) * (l.map (fun p => p.1 ^ 2)).sum
          - (l.map (fun p => p.1)).sum ^ 2) := by
  rw [ols_slope, zip_proj, olsDet_eq, List.length_map]

theorem ols_intercept_eq (l : List (ℝ × ℝ)) :
    ols_intercept (l.map (fun p => p.1)) (l.map (fun p => p.2))
      = ((l.map (fun p => p.1 ^ 2)).sum * (l.map (fun p => p.2)).sum
          - (l.map (fun p => p.1)).sum * (l.map (fun p => p.1 * p.2)).sum)
        / ((l.length : ℝ) * (l.map (fun p => p.1 ^ 2)).sum
          - (l.map (fun p => p.1)).sum ^ 2) := by
  rw [ols_intercept, zip_proj, olsDet_eq, map_map_fst_sq]

theorem ols_minimizes (l : List (ℝ × ℝ))
    (hdet : 0 < olsDet (l.map (fun p => p.1))) (a b : ℝ) :
    ssr (l.map (fun p => p.1)) (l.map (fun p => p.2))
        (ols_slope (l.map (fun p => p.1)) (l.map (fun p => p.2)))
        (ols_intercept (l.map (fun p => p.1)) (l.map (fun p => p.2)))
      ≤ ssr (l.map (fun p => p.1)) (l.map (fun p => p.2)) a b := by
  have hn : 0 < (l.length : ℝ) := by
    cases l with
    | nil => simp [olsDet] at hdet
    | cons p t => exact_mod_cast Nat.succ_pos t.length
  rw [olsDet_eq] at hdet
  rw [ssr_expand, ssr_expand, ols_slope_eq, ols_intercept_eq]
  exact ols_quadratic_min _ _ _ _ _ _ a b _ _ hn hdet
    (ols_normal_eq1 _ _ _ _ _ (ne_of_gt hdet))
    (ols_normal_eq2 _ _ _ _ _ (ne_of_gt hdet))

theorem logPoints_fst (pts : List (ℚ × ℚ)) :
    (logPoints pts).1
      = (pts.map (fun p => (log10 (p.1 : ℝ), log10 (p.2 : ℝ)))).map (fun p => p.1) := by
  rw [List.map_map]
  rfl

theorem logPoints_snd (pts : List (ℚ × ℚ)) :
    (logPoints pts).2
      = (pts.map (fun p => (log10 (p.1 : ℝ), log10 (p.2 : ℝ)))).map (fun p => p.2) := by
  rw [List.map_map]
  rfl

/-- Claim C4 as amended: whenever at least two filtered points have distinct
(positive) times and all filtered values are positive, `compute_log_slope`
returns the OLS slope of `log10(msd)` on `log10(time)` over exactly the
points with `windowMin < time < windowMax` together with the filtered log-log
point set — but not the intercept, which the source computes and then
discards.  The returned slope, with the internal intercept, minimizes the sum
of squared residuals over the filtered log-log points. -/
theorem compute_log_slope_fit (time msd : List ℚ) (lo hi : ℚ)
    (hpos : ∀ p ∈ filterWindow time msd lo hi, 0 < p.1 ∧ 0 < p.2)
    (hdist : ∃ p ∈ filterWindow time msd lo hi,
      ∃ q ∈ filterWindow time msd lo hi, p.1 ≠ q.1) :
    compute_log_slope time msd lo hi
      = (ols_slope (logPoints (filterWindow time msd lo hi)).1
            (logPoints (filterWindow time msd lo hi)).2,
         ((logPoints (filterWindow time msd lo hi)).1,
          (logPoints (filterWindow time msd lo hi)).2)) ∧
    ∀ a b : ℝ,
      ssr (logPoints (filterWindow time msd lo hi)).1
          (logPoints (filterWindow time msd lo hi)).2
          (ols_slope (logPoints (filterWindow time msd lo hi)).1
            (logPoints (filterWindow time msd lo hi)).2)
          (ols_intercept (logPoints (filterWindow time msd lo hi)).1
            (logPoints (filterWindow time msd lo hi)).2)
        ≤ ssr (logPoints (filterWindow time msd lo hi)).1
            (logPoints (filterWindow time msd lo hi)).2 a b := by
  obtain ⟨p, hp, q, hq, hpq⟩ := hdist
  have hp' := hpos p hp
  have hq' := hpos q hq
  have h10 : (1 : ℝ) < 10 := by norm_num
  have hlogne : log10 ((p.1 : ℚ) : ℝ) ≠ log10 ((q.1 : ℚ) : ℝ) := by
    intro h
    apply hpq
    have hpmem : ((p.1 : ℚ) : ℝ) ∈ Set.Ioi (0 : ℝ) := by
      simp only [Set.mem_Ioi]
      exact_mod_cast hp'.1
    have hqmem : ((q.1 : ℚ) : ℝ) ∈ Set.Ioi (0 : ℝ) := by
      simp only [Set.mem_Ioi]
      exact_mod_cast hq'.1
    have heq := Real.logb_injOn_pos h10 hpmem hqmem h
    exact_mod_cast heq
  have hmem1 : log10 ((p.1 : ℚ) : ℝ) ∈ (logPoints (filterWindow time msd lo hi)).1 :=
    List.mem_map_of_mem _ hp
  have hmem2 : log10 ((q.1 : ℚ) : ℝ) ∈ (logPoints (filterWindow time msd lo hi)).1 :=
    List.mem_map_of_mem _ hq
  have hdet0 : 0 < olsDet ((logPoints (filterWindow time msd lo hi)).1) :=
    olsDet_pos _ _ _ hmem1 hmem2 hlogne
  constructor
  · unfold compute_log_slope polyfit1
    rw [if_neg hdet0.ne']
  · intro a b
    have hdetl : 0 < olsDet (((filterWindow time msd lo hi).map
        (fun r => (log10 (r.1 : ℝ), log10 (r.2 : ℝ)))).map (fun r => r.1)) := by
      rw [← logPoints_fst]
      exact hdet0
    have hmin := ols_minimizes _ hdetl a b
    rw [logPoints_fst, logPoints_snd]
    exact hmin

/-- Witness for the amended C4 at `time = [10, 100]`, `msd = [10, 10000]`,
window `(1, 1000)`: both points survive, are positive, and have distinct
times. -/
theorem compute_log_slope_fit_witness :
    (∀ p ∈ filterWindow [10, 100] [10, 10000] 1 1000, 0 < p.1 ∧ 0 < p.2) ∧
    (∃ p ∈ filterWindow [10, 100] [10, 10000] 1 1000,
      ∃ q ∈ filterWindow [10, 100] [10, 10000] 1 1000, p.1 ≠ q.1) ∧
    compute_log_slope [10, 100] [10, 10000] 1 1000
      = (ols_slope (logPoints (filterWindow [10, 100] [10, 10000] 1 1000)).1
            (logPoints (filterWindow [10, 100] [10, 10000] 1 1000)).2,
         ((logPoints (filterWindow [10, 100] [10, 10000] 1 1000)).1,
          (logPoints (filterWindow [10, 100] [10, 10000] 1 1000)).2)) :=
  ⟨by decide, by decide,
    (compute_log_slope_fit [10, 100] [10, 10000] 1 1000 (by decide) (by decide)).1⟩

theorem log10_ten : log10 ((10 : ℚ) : ℝ) = 1 := by
  have hc : ((10 : ℚ) : ℝ) = 10 := by norm_num
  rw [log10, hc]
  exact Real.logb_self_eq_one (by norm_num)

theorem log10_hundred : log10 ((100 : ℚ) : ℝ) = 2 := by
  have hc : ((100 : ℚ) : ℝ) = (10 : ℝ) ^ (2 : ℕ) := by norm_num
  rw [log10, hc, Real.logb_pow, Real.logb_self_eq_one (by norm_num)]
  norm_num

theorem log10_tenThousand : log10 ((10000 : ℚ) : ℝ) = 4 := by
  have hc : ((10000 : ℚ) : ℝ) = (10 : ℝ) ^ (4 : ℕ) := by norm_num
  rw [log10, hc, Real.logb_pow, Real.logb_self_eq_one (by norm_num)]
  norm_num

/-- Counterexample to claim C4: `compute_log_slope` does not return the
intercept.  On `time = [10, 100]`, `msd = [10, 10000]`, window `(1, 1000)`
(log-log points `(1, 1)` and `(2, 4)`, exact fit `y = 3x - 2`) the source
returns only the slope `3` and the point set `([1, 2], [1, 4])`; the OLS
intercept is `-2` and appears nowhere in the returned value. -/
theorem compute_log_slope_no_intercept_cex :
    compute_log_slope [10, 100] [10, 10000] 1 1000 = (3, ([1, 2], [1, 4])) ∧
    ols_intercept [1, 2] [1, 4] = -2 ∧
    (3 : ℝ) ≠ -2 ∧ (-2 : ℝ) ∉ ([1, 2] : List ℝ) ∧ (-2 : ℝ) ∉ ([1, 4] : List ℝ) := by
  have hfil : filterWindow [10, 100] [10, 10000] 1 1000 = [(10, 10), (100, 10000)] := by
    decide
  have hlog : logPoints (filterWindow [10, 100] [10, 10000] 1 1000)
      = (([1, 2] : List ℝ), ([1, 4] : List ℝ)) := by
    rw [logPoints, hfil]
    simp only [List.map_cons, List.map_nil]
    rw [log10_ten, log10_hundred, log10_tenThousand]
  have hdet : olsDet ([1, 2] : List ℝ) = 1 := by
    simp only [olsDet, List.map_cons, List.map_nil, List.sum_cons, List.sum_nil,
      List.length_cons, List.length_nil]
    norm_num
  have hzip : (([1, 2] : List ℝ).zip ([1, 4] : List ℝ)) = [(1, 1), (2, 4)] := rfl
  refine ⟨?_, ?_, by norm_num, ?_, ?_⟩
  · unfold compute_log_slope
    rw [hlog]
    unfold polyfit1
    rw [if_neg (by rw [hdet]; norm_num)]
    unfold ols_slope
    rw [hdet, hzip]
    simp only [List.map_cons, List.map_nil, List.sum_cons, List.sum_nil,
      List.length_cons, List.length_nil]
    norm_num
  · unfold ols_intercept
    rw [hdet, hzip]
    simp only [List.map_cons, List.map_nil, List.sum_cons, List.sum_nil]
    norm_num
  · intro h
    rcases List.mem_cons.mp h with h1 | h2
    · norm_num at h1
    · rcases List.mem_cons.mp h2 with h3 | h4
      · norm_num at h3
      · simp at h4
  · intro h
    rcases List.mem_cons.mp h with h1 | h2
    · norm_num at h1
    · rcases List.mem_cons.mp h2 with h3 | h4
      · norm_num at h3
      · simp at h4

/-- Counterexample to claim C3: `compute_log_slope` has no data-sufficiency
check and never raises `InsufficientData`.  With a window containing exactly
one point — `time = [100]`, `msd = [10]`, window `(1, 1000)` — it still
returns a slope: for the single log-log point `(2, 1)` numpy's column-scaled
`lstsq` yields the min-norm solution of the scaled system, which unscales to
slope `1/(2·2) = 1/4`.  No error, and no fallback-free failure, occurs. -/
theorem compute_log_slope_single_point_cex :
    compute_log_slope [100] [10] 1 1000 = (1 / 4, ([2], [1])) := by
  have hfil : filterWindow [100] [10] 1 1000 = [(100, 10)] := by decide
  have hlog : logPoints (filterWindow [100] [10] 1 1000)
      = (([2] : List ℝ), ([1] : List ℝ)) := by
    rw [logPoints, hfil]
    simp only [List.map_cons, List.map_nil]
    rw [log10_ten, log10_hundred]
  have hdet : olsDet ([2] : List ℝ) = 0 := by
    simp only [olsDet, List.map_cons, List.map_nil, List.sum_cons, List.sum_nil,
      List.length_cons, List.length_nil]
    norm_num
  unfold compute_log_slope
  rw [hlog]
  unfold polyfit1
  rw [if_pos hdet]
  simp only [List.sum_cons, List.sum_nil, List.length_cons, List.length_nil,
    List.headD_cons]
  norm_num

/-- Claim C3 as amended: `compute_log_slope` never fails with
`InsufficientData`; when exactly one point `(t, m)` survives the window
filter, with `t, m > 0` and `log10 t ≠ 0`, it returns the slope
`log10(m)/(2·log10(t))` — the minimum-norm solution of numpy's column-scaled
least-squares system, unscaled — together with that log point; no error is
raised and no check exists.  (At `log10 t = 0` numpy instead produces NaN.) -/
theorem compute_log_slope_single_point (time msd : List ℚ) (lo hi : ℚ)
    (t m : ℚ) (hfil : filterWindow time msd lo hi = [(t, m)])
    (ht : 0 < t) (hm : 0 < m) (hlt : log10 (t : ℝ) ≠ 0) :
    compute_log_slope time msd lo hi
      = (log10 (m : ℝ) / (2 * log10 (t : ℝ)),
         ([log10 (t : ℝ)], [log10 (m : ℝ)])) := by
  have hlog : logPoints (filterWindow time msd lo hi)
      = ([log10 (t : ℝ)], [log10 (m : ℝ)]) := by
    rw [logPoints, hfil]
    simp only [List.map_cons, List.map_nil]
  have hdet : olsDet ([log10 (t : ℝ)] : List ℝ) = 0 := by
    simp only [olsDet, List.map_cons, List.map_nil, List.sum_cons, List.sum_nil,
      List.length_cons, List.length_nil]
    push_cast
    ring
  unfold compute_log_slope
  rw [hlog]
  unfold polyfit1
  rw [if_pos hdet]
  simp only [List.sum_cons, List.sum_nil, List.length_cons, List.length_nil,
    List.headD_cons, Prod.mk.injEq]
  constructor
  · push_cast
    ring
  · trivial

/-- Witness for the amended C3 at `time = [100]`, `msd = [10]`,
window `(1, 1000)`: one surviving positive point with `log10 100 = 2 ≠ 0`. -/
theorem compute_log_slope_single_point_witness :
    (filterWindow [100] [10] 1 1000 = [(100, 10)] ∧
      (0 : ℚ) < 100 ∧ (0 : ℚ) < 10 ∧ log10 ((100 : ℚ) : ℝ) ≠ 0) ∧
    compute_log_slope [100] [10] 1 1000
      = (log10 ((10 : ℚ) : ℝ) / (2 * log10 ((100 : ℚ) : ℝ)),
         ([log10 ((100 : ℚ) : ℝ)], [log10 ((10 : ℚ) : ℝ)])) :=
  ⟨⟨by decide, by norm_num, by norm_num, by rw [log10_hundred]; norm_num⟩,
    compute_log_slope_single_point [100] [10] 1 1000 100 10 (by decide)
      (by norm_num) (by norm_num) (by rw [log10_hundred]; norm_num)⟩

/-! ## MSDEngine, VACF path (spec-modelled)

The tests (`src/test_msd_analysis.py`) import `compute_velocity`,
`compute_vacf` and `compute_msd_from_vacf` from `msd_analysis_protein`, but
no definition of these functions appears under `src/`; they are modelled here
from spec §4.3 (`msdFromVACF`). -/

/-- Modelled from the spec: `compute_velocity` is absent from `src/code` (only
the tests import it).  Spec §4.3 step 1: velocity is the finite-difference
derivative of position with respect to time, central difference in the
interior and one-sided at the boundaries. -/
def compute_velocity (x t : List ℚ) : List ℚ :=
  (List.range x.length).map (fun i =>
    if i = 0 then (x.getD 1 0 - x.getD 0 0) / (t.getD 1 0 - t.getD 0 0)
    else if i = x.length - 1 then
      (x.getD i 0 - x.getD (i - 1) 0) / (t.getD i 0 - t.getD (i - 1) 0)
    else (x.getD (i + 1) 0 - x.getD (i - 1) 0) / (t.getD (i + 1) 0 - t.getD (i - 1) 0))

/-- Modelled from the spec: `compute_vacf` is absent from `src/code`.
Spec §4.3 step 2: `vacf[lag]` is the mean over valid `i` of `v[i]·v[i+lag]`,
for `lag` in `[0, N-1]`. -/
def compute_vacf (v : List ℚ) : List ℚ :=
  (List.range v.length).map (fun lag =>
    (((v.drop lag).zip v).map (fun p => p.1 * p.2)).sum / ((v.length - lag : ℕ) : ℚ))

/-- Modelled from the spec: `compute_msd_from_vacf` is absent from `src/code`.
Spec §4.3 step 3: `msd[k] = 2·dt²·Σ_{i=1}^{k} (Σ_{j=0}^{i-1} vacf[j])`, a
double cumulative sum of the VACF scaled by `2·dt²` (so `msd[0] = 0`). -/
def compute_msd_from_vacf (vacf : List ℚ) (dt : ℚ) : List ℚ :=
  (List.range vacf.length).map (fun k =>
    2 * dt ^ 2 * ((List.range k).map (fun i => (vacf.take (i + 1)).sum)).sum)

theorem compute_msd_from_vacf_getD (a : List ℚ) (dt : ℚ) (k : ℕ)
    (h : k < a.length) :
    (compute_msd_from_vacf a dt).getD k 0
      = 2 * dt ^ 2 * ((List.range k).map (fun i => (a.take (i + 1)).sum)).sum := by
  have hlen : k < (compute_msd_from_vacf a dt).length := by
    simpa [compute_msd_from_vacf] using h
  rw [List.getD_eq_getElem _ 0 hlen]
  simp only [compute_msd_from_vacf, List.getElem_map, List.getElem_range]

theorem compute_msd_from_vacf_step (a : List ℚ) (dt : ℚ) (k : ℕ)
    (h : k + 1 < a.length) :
    (compute_msd_from_vacf a dt).getD (k + 1) 0
      = (compute_msd_from_vacf a dt).getD k 0 + 2 * dt ^ 2 * (a.take (k + 1)).sum := by
  rw [compute_msd_from_vacf_getD a dt (k + 1) h,
    compute_msd_from_vacf_getD a dt k (by omega)]
  rw [List.range_succ, List.map_append, List.sum_append]
  simp only [List.map_cons, List.map_nil, List.sum_cons, List.sum_nil]
  ring

/-- Counterexample to claim C5: the double-integrated MSD is not monotone for
every VACF derived from a real velocity sequence.  With positions
`[0, -1, 1, 0]` at times `[0, 1, 2, 3]` (so `dt = 1 > 0`), the finite-difference
velocities are `[-1, 1/2, 1/2, -1]`, the VACF is `[5/8, -1/4, -1/2, 1]`, and
the resulting MSD `[0, 5/4, 2, 7/4]` decreases from index 2 to index 3. -/
theorem compute_msd_from_vacf_not_monotone_cex :
    (0 : ℚ) < 1 ∧
    compute_velocity [0, -1, 1, 0] [0, 1, 2, 3] = [-1, 1/2, 1/2, -1] ∧
    compute_msd_from_vacf
        (compute_vacf (compute_velocity [0, -1, 1, 0] [0, 1, 2, 3])) 1
      = [0, 5/4, 2, 7/4] ∧
    (compute_msd_from_vacf
        (compute_vacf (compute_velocity [0, -1, 1, 0] [0, 1, 2, 3])) 1).getD 3 0
      < (compute_msd_from_vacf
        (compute_vacf (compute_velocity [0, -1, 1, 0] [0, 1, 2, 3])) 1).getD 2 0 := by
  have hv : compute_velocity [0, -1, 1, 0] [0, 1, 2, 3] = [-1, 1/2, 1/2, -1] := by
    norm_num [compute_velocity, List.range_succ]
  have hvacf : compute_vacf [-1, 1/2, 1/2, -1] = [5/8, -1/4, -1/2, 1] := by
    norm_num [compute_vacf, List.range_succ]
  have hmsd : compute_msd_from_vacf [5/8, -1/4, -1/2, 1] 1 = [0, 5/4, 2, 7/4] := by
    norm_num [compute_msd_from_vacf, List.range_succ]
  refine ⟨by norm_num, hv, ?_, ?_⟩
  · rw [hv, hvacf, hmsd]
  · rw [hv, hvacf, hmsd]
    norm_num

/-- Claim C5 as amended: for any VACF sequence and any `dt > 0`, the
double-integrated MSD is monotonically non-decreasing across its index range
iff every prefix sum of the VACF is non-negative, and under that condition it
is also non-negative at every index.  (Unconditionally the claim fails: see
the counterexample.) -/
theorem compute_msd_from_vacf_monotone_iff (a : List ℚ) (dt : ℚ) (hdt : 0 < dt) :
    ((∀ k, k + 1 < a.length →
        (compute_msd_from_vacf a dt).getD k 0
          ≤ (compute_msd_from_vacf a dt).getD (k + 1) 0)
      ↔ (∀ k, k + 1 < a.length → 0 ≤ (a.take (k + 1)).sum)) ∧
    ((∀ k, k + 1 < a.length → 0 ≤ (a.take (k + 1)).sum) →
      ∀ k, k < a.length → 0 ≤ (compute_msd_from_vacf a dt).getD k 0) := by
  have h2 : (0 : ℚ) < 2 * dt ^ 2 := by positivity
  constructor
  · constructor
    · intro hmono k hk
      have hs := compute_msd_from_vacf_step a dt k hk
      have hm := hmono k hk
      nlinarith
    · intro hpre k hk
      have hs := compute_msd_from_vacf_step a dt k hk
      have hp := hpre k hk
      nlinarith
  · intro hpre k hk
    rw [compute_msd_from_vacf_getD a dt k hk]
    apply mul_nonneg h2.le
    apply List.sum_nonneg
    intro z hz
    obtain ⟨i, hi, rfl⟩ := List.mem_map.mp hz
    have hik : i < k := List.mem_range.mp hi
    exact hpre i (by omega)

/-- Witness for the amended C5 at the VACF `[1, 1]` with `dt = 1`. -/
theorem compute_msd_from_vacf_monotone_iff_witness :
    (0 : ℚ) < 1 ∧
    (((∀ k, k + 1 < ([1, 1] : List ℚ).length →
        (compute_msd_from_vacf [1, 1] 1).getD k 0
          ≤ (compute_msd_from_vacf [1, 1] 1).getD (k + 1) 0)
      ↔ (∀ k, k + 1 < ([1, 1] : List ℚ).length →
          0 ≤ (([1, 1] : List ℚ).take (k + 1)).sum)) ∧
    ((∀ k, k + 1 < ([1, 1] : List ℚ).length →
        0 ≤ (([1, 1] : List ℚ).take (k + 1)).sum) →
      ∀ k, k < ([1, 1] : List ℚ).length →
        0 ≤ (compute_msd_from_vacf [1, 1] 1).getD k 0)) :=
  ⟨by norm_num, compute_msd_from_vacf_monotone_iff [1, 1] 1 (by norm_num)⟩

end MsdAnalysis
